import Mathlib

/-!
Shallow embedding of the discern-data-parse summary scripts
(txt-cpu-load.py, txt-proc-cpu.py, txt-proc-mem.py, txt-network.py,
txt-proc-new.py, txt-file.py), together with theorems checking the
specified aggregation properties.  Timestamps are integer Unix seconds
(modelled as ℤ, matching `int(timestamp)` / `pd.to_datetime(..., unit='s')`);
float values are modelled exactly as ℚ.
-/

namespace Discern

/-- Stable insertion of `a` into a list: `a` goes in front of the first
element `b` with `le a b = true`.  Building block of `sortLe`. -/
def insertLe {α : Type} (le : α → α → Bool) (a : α) : List α → List α
  | [] => [a]
  | b :: bs => if le a b then a :: b :: bs else b :: insertLe le a bs

/-- Stable insertion sort by the boolean order test `le`; models
`DataFrame.sort_values` on the relevant key column. -/
def sortLe {α : Type} (le : α → α → Bool) : List α → List α
  | [] => []
  | a :: as => insertLe le a (sortLe le as)

/-- Remove adjacent duplicates.  Applied after an ascending sort this models
`Series.sort_values().unique()` (sorted distinct values, ascending). -/
def dedupAdj {α : Type} [DecidableEq α] : List α → List α
  | [] => []
  | [a] => [a]
  | a :: b :: r => if a = b then dedupAdj (b :: r) else a :: dedupAdj (b :: r)

/-- Sort a list ascending by the linear order of its elements. -/
def sortAsc {α : Type} [LinearOrder α] (l : List α) : List α :=
  sortLe (fun a b => decide (a ≤ b)) l

/-- The sorted list of distinct values of `l`, ascending — the model of
`Series.sort_values().unique()` (and of sorted `groupby` keys). -/
def sortedDistinct {α : Type} [LinearOrder α] (l : List α) : List α :=
  dedupAdj (sortAsc l)

/-- First-appearance deduplication; models `Series.unique()` on an unsorted
column. -/
def uniqueKeys {α : Type} [DecidableEq α] : List α → List α
  | [] => []
  | a :: r => a :: (uniqueKeys r).filter (fun x => x ≠ a)

/-- `l.foldl max a`: the maximum of `a` and the elements of `l`. -/
def foldMax {α : Type} [LinearOrder α] (a : α) (l : List α) : α :=
  l.foldl max a

/-- Maximum of a list with default `d` for the empty list; models
`Series.max()` (the pipelines only apply it to nonempty groups). -/
def listMax {α : Type} [LinearOrder α] (l : List α) (d : α) : α :=
  match l with
  | [] => d
  | a :: r => foldMax a r

/-- `l.foldl min a`: the minimum of `a` and the elements of `l`. -/
def foldMin {α : Type} [LinearOrder α] (a : α) (l : List α) : α :=
  l.foldl min a

/-- Minimum of a list with default `d` for the empty list; models
`Series.min()`. -/
def listMin {α : Type} [LinearOrder α] (l : List α) (d : α) : α :=
  match l with
  | [] => d
  | a :: r => foldMin a r

theorem mem_insertLe {α : Type} (le : α → α → Bool) (a x : α) :
    ∀ l : List α, x ∈ insertLe le a l ↔ x = a ∨ x ∈ l := by
  intro l
  induction l with
  | nil => simp [insertLe]
  | cons b bs ih =>
    by_cases h : le a b
    · simp [insertLe, h, List.mem_cons]
    · simp only [insertLe, h, if_neg, Bool.false_eq_true, ite_false, List.mem_cons, ih]
      tauto

theorem mem_sortLe {α : Type} (le : α → α → Bool) (x : α) :
    ∀ l : List α, x ∈ sortLe le l ↔ x ∈ l := by
  intro l
  induction l with
  | nil => simp [sortLe]
  | cons a as ih =>
    simp [sortLe, mem_insertLe, ih, List.mem_cons]

theorem mem_dedupAdj {α : Type} [DecidableEq α] (x : α) :
    ∀ l : List α, x ∈ dedupAdj l ↔ x ∈ l
  | [] => by simp [dedupAdj]
  | [a] => by simp [dedupAdj]
  | a :: b :: r => by
    by_cases h : a = b
    · subst h
      rw [show dedupAdj (a :: a :: r) = dedupAdj (a :: r) from by simp [dedupAdj]]
      rw [mem_dedupAdj x (a :: r)]
      simp only [List.mem_cons]
      tauto
    · simp [dedupAdj, h, mem_dedupAdj x (b :: r), List.mem_cons]

theorem mem_sortedDistinct {α : Type} [LinearOrder α] (x : α) (l : List α) :
    x ∈ sortedDistinct l ↔ x ∈ l := by
  rw [sortedDistinct, mem_dedupAdj, sortAsc, mem_sortLe]

theorem mem_uniqueKeys {α : Type} [DecidableEq α] (x : α) :
    ∀ l : List α, x ∈ uniqueKeys l ↔ x ∈ l := by
  intro l
  induction l with
  | nil => simp [uniqueKeys]
  | cons a r ih =>
    simp only [uniqueKeys, List.mem_cons, List.mem_filter, ih]
    by_cases h : x = a
    · simp [h]
    · simp [h]

theorem le_foldMax {α : Type} [LinearOrder α] (a : α) :
    ∀ l : List α, a ≤ foldMax a l := by
  intro l
  induction l generalizing a with
  | nil => simp [foldMax]
  | cons b bs ih =>
    calc a ≤ max a b := le_max_left a b
    _ ≤ foldMax (max a b) bs := ih (max a b)
    _ = foldMax a (b :: bs) := rfl

theorem foldMax_le_of_mem {α : Type} [LinearOrder α] (a x : α) :
    ∀ l : List α, x ∈ l → x ≤ foldMax a l := by
  intro l
  induction l generalizing a with
  | nil => intro h; simp at h
  | cons b bs ih =>
    intro h
    rcases List.mem_cons.mp h with h | h
    · subst h
      calc x ≤ max a x := le_max_right a x
      _ ≤ foldMax (max a x) bs := le_foldMax _ bs
    · exact ih (max a b) h

theorem foldMax_mem {α : Type} [LinearOrder α] (a : α) :
    ∀ l : List α, foldMax a l = a ∨ foldMax a l ∈ l := by
  intro l
  induction l generalizing a with
  | nil => left; rfl
  | cons b bs ih =>
    rcases ih (max a b) with h | h
    · rcases max_cases a b with ⟨he, _⟩ | ⟨he, _⟩
      · left; rw [show foldMax a (b :: bs) = foldMax (max a b) bs from rfl, h, he]
      · right
        rw [show foldMax a (b :: bs) = foldMax (max a b) bs from rfl, h, he]
        exact List.mem_cons_self b bs
    · right
      exact List.mem_cons_of_mem b h

theorem listMax_le_of_mem {α : Type} [LinearOrder α] (l : List α) (d x : α)
    (hx : x ∈ l) : x ≤ listMax l d := by
  match l with
  | [] => simp at hx
  | a :: r =>
    rcases List.mem_cons.mp hx with h | h
    · subst h; exact le_foldMax x r
    · exact foldMax_le_of_mem a x r h

theorem listMax_mem {α : Type} [LinearOrder α] (l : List α) (d : α)
    (hl : l ≠ []) : listMax l d ∈ l := by
  match l with
  | [] => exact absurd rfl hl
  | a :: r =>
    rcases foldMax_mem a r with h | h
    · rw [show listMax (a :: r) d = foldMax a r from rfl, h]
      exact List.mem_cons_self a r
    · exact List.mem_cons_of_mem a h

theorem head?_insertLe {α : Type} (le : α → α → Bool) (a : α) :
    ∀ l : List α,
      (insertLe le a l).head? = some a ∨ (insertLe le a l).head? = l.head? := by
  intro l
  match l with
  | [] => left; rfl
  | b :: bs =>
    by_cases h : le a b
    · left; simp [insertLe, h]
    · right; simp [insertLe, h]

theorem chain_le_insertLe {α β : Type} [LinearOrder β] (k : α → β) (a : α) :
    ∀ l : List α, List.Chain' (fun x y => k x ≤ k y) l →
      List.Chain' (fun x y => k x ≤ k y)
        (insertLe (fun x y => decide (k x ≤ k y)) a l) := by
  intro l
  induction l with
  | nil => intro _; simp [insertLe]
  | cons b bs ih =>
    intro hc
    by_cases h : (decide (k a ≤ k b) : Bool)
    · have hab : k a ≤ k b := of_decide_eq_true h
      simp only [insertLe, h, if_true]
      exact List.chain'_cons.mpr ⟨hab, hc⟩
    · have hba : k b ≤ k a := le_of_not_le (of_decide_eq_false (Bool.of_not_eq_true h))
      simp only [insertLe, h, if_false]
      have htail : List.Chain' (fun x y => k x ≤ k y) bs :=
        (List.chain'_cons'.mp hc).2
      refine List.chain'_cons'.mpr ⟨?_, ih htail⟩
      intro y hy
      rcases head?_insertLe (fun x y => decide (k x ≤ k y)) a bs with he | he
      · rw [he] at hy
        cases hy
        exact hba
      · rw [he] at hy
        exact (List.chain'_cons'.mp hc).1 y hy

theorem chain_le_sortLe {α β : Type} [LinearOrder β] (k : α → β) :
    ∀ l : List α, List.Chain' (fun x y => k x ≤ k y)
      (sortLe (fun x y => decide (k x ≤ k y)) l) := by
  intro l
  induction l with
  | nil => simp [sortLe]
  | cons a as ih => exact chain_le_insertLe k a _ ih

theorem chain_le_sortAsc {α : Type} [LinearOrder α] (l : List α) :
    List.Chain' (· ≤ ·) (sortAsc l) :=
  chain_le_sortLe (fun x : α => x) l

theorem head?_dedupAdj {α : Type} [DecidableEq α] :
    ∀ (l : List α) (a : α), (dedupAdj (a :: l)).head? = some a
  | [], _ => rfl
  | b :: r, a => by
    by_cases h : a = b
    · subst h
      rw [show dedupAdj (a :: a :: r) = dedupAdj (a :: r) from by simp [dedupAdj]]
      exact head?_dedupAdj r a
    · simp [dedupAdj, h]

theorem chain_lt_dedupAdj {α : Type} [LinearOrder α] :
    ∀ l : List α, List.Chain' (· ≤ ·) l → List.Chain' (· < ·) (dedupAdj l)
  | [] => by intro _; simp [dedupAdj]
  | [a] => by intro _; simp [dedupAdj]
  | a :: b :: r => by
    intro h
    have hab : a ≤ b := (List.chain'_cons.mp h).1
    have ht : List.Chain' (· ≤ ·) (b :: r) := (List.chain'_cons.mp h).2
    by_cases hEq : a = b
    · subst hEq
      rw [show dedupAdj (a :: a :: r) = dedupAdj (a :: r) from by simp [dedupAdj]]
      exact chain_lt_dedupAdj (a :: r) ht
    · rw [show dedupAdj (a :: b :: r) = a :: dedupAdj (b :: r) from by
        simp [dedupAdj, hEq]]
      refine List.chain'_cons'.mpr ⟨?_, chain_lt_dedupAdj (b :: r) ht⟩
      intro y hy
      rw [head?_dedupAdj r b] at hy
      cases hy
      exact lt_of_le_of_ne hab hEq

theorem chain_lt_sortedDistinct {α : Type} [LinearOrder α] (l : List α) :
    List.Chain' (· < ·) (sortedDistinct l) :=
  chain_lt_dedupAdj _ (chain_le_sortAsc l)

theorem chain_lt_le_getLast {α : Type} [LinearOrder α] :
    ∀ (l : List α) (m : α), List.Chain' (· < ·) l → l.getLast? = some m →
      ∀ x ∈ l, x ≤ m
  | [], _ => by intro _ h; simp at h
  | [a], m => by
    intro _ hlast x hx
    simp only [List.getLast?_singleton, Option.some.injEq] at hlast
    rcases List.mem_singleton.mp hx with rfl
    exact le_of_eq hlast
  | a :: b :: r, m => by
    intro hc hlast x hx
    have hab : a < b := (List.chain'_cons.mp hc).1
    have ht : List.Chain' (· < ·) (b :: r) := (List.chain'_cons.mp hc).2
    have hlast2 : (b :: r).getLast? = some m := by
      rwa [List.getLast?_cons_cons] at hlast
    rcases List.mem_cons.mp hx with rfl | hx
    · have hb : b ≤ m := chain_lt_le_getLast (b :: r) m ht hlast2 b (List.mem_cons_self b r)
      exact le_of_lt (lt_of_lt_of_le hab hb)
    · exact chain_lt_le_getLast (b :: r) m ht hlast2 x hx

/-! Network pair summary: embedding of `txt-network.py`. -/

/-- Line 14 of txt-network.py: `tuple(sorted((ip1, ip2)))` for two strings —
the smaller address first.  Python string comparison is code-point
lexicographic, i.e. the lexicographic order on the character list, written
here on `String.toList` (equivalent to the `String` order by
`String.lt_iff_toList_lt`). -/
def create_canonical_pair (ip1 ip2 : String) : String × String :=
  if ip2.toList < ip1.toList then (ip2, ip1) else (ip1, ip2)

/-- One packet as read from a `"Packets"` batch entry: integer timestamp
(`int(packet_ts)`), integer length (`int(packet_len)`), source and
destination IP strings. -/
structure Packet where
  ts : ℤ
  len : ℤ
  src : String
  dst : String
deriving DecidableEq, Repr

/-- A packet after canonicalization of its pair key (lines 66-73):
`IP_A = ip_pair[0]`, `IP_B = ip_pair[1]`. -/
structure KeyedPacket where
  ipA : String
  ipB : String
  ts : ℤ
  len : ℤ
deriving DecidableEq, Repr

/-- Extraction of one packet into its keyed record. -/
def keyPacket (p : Packet) : KeyedPacket :=
  let pr := create_canonical_pair p.src p.dst
  ⟨pr.1, pr.2, p.ts, p.len⟩

/-- Extraction of the packet list (the `extracted_packets` list). -/
def extractPackets (ps : List Packet) : List KeyedPacket :=
  ps.map keyPacket

/-- A packet with source and destination exchanged. -/
def swapPacket (p : Packet) : Packet :=
  ⟨p.ts, p.len, p.dst, p.src⟩

/-- Boolean lexicographic order on pair keys, the order `groupby` uses for
the `['IP_A', 'IP_B']` grouping keys. -/
def pairLe (p q : String × String) : Bool :=
  decide (p.1.toList < q.1.toList) ||
    (decide (p.1 = q.1) && decide (p.2.toList ≤ q.2.toList))

/-- The distinct pair keys of the extracted packets, in groupby order. -/
def pairKeys (ks : List KeyedPacket) : List (String × String) :=
  dedupAdj (sortLe pairLe (ks.map (fun q => (q.ipA, q.ipB))))

/-- The `(ts, len)` samples of one pair group. -/
def netGroup (ks : List KeyedPacket) (k : String × String) : List (ℤ × ℤ) :=
  (ks.filter (fun q => decide (q.ipA = k.1 ∧ q.ipB = k.2))).map
    (fun q => (q.ts, q.len))

/-- The distinct 1-second buckets of a group.  Packet timestamps are whole
seconds, so the `pd.Grouper(freq='1s')` bucket of a sample is its own
timestamp; only buckets with at least one sample appear (groupby with a
`Grouper` plus other keys yields observed bins only). -/
def secondsOf (g : List (ℤ × ℤ)) : List ℤ :=
  sortedDistinct (g.map Prod.fst)

/-- `BytesInSecond` for one bucket: sum of the lengths of the group samples
in that second (lines 117-120). -/
def bytesInSecond (g : List (ℤ × ℤ)) (t : ℤ) : ℤ :=
  ((g.filter (fun p => decide (p.1 = t))).map Prod.snd).sum

/-- The per-second byte totals of a group, one entry per active second. -/
def bucketSums (g : List (ℤ × ℤ)) : List ℤ :=
  (secondsOf g).map (bytesInSecond g)

/-- `peak_bytes`: max of `BytesInSecond` over the group (line 125). -/
def peakBytesInSecond (g : List (ℤ × ℤ)) : ℤ :=
  listMax (bucketSums g) 0

/-- `TotalBytes`: sum of `BytesInSecond` over the group (line 131). -/
def netTotalBytes (g : List (ℤ × ℤ)) : ℤ :=
  (bucketSums g).sum

/-- `TotalActiveSeconds`: count of `BytesInSecond` entries (line 132). -/
def netActiveSeconds (g : List (ℤ × ℤ)) : ℕ :=
  (bucketSums g).length

/-- `AvgRateMbps = TotalBytes * 8 / (TotalActiveSeconds * 1_000_000)` when
there is at least one active second, else `0.0` (lines 134-136). -/
def avgRateMbps (g : List (ℤ × ℤ)) : ℚ :=
  if 0 < netActiveSeconds g then
    ((netTotalBytes g : ℚ) * 8) / ((netActiveSeconds g : ℚ) * 1000000)
  else 0

/-- `PeakRateMbps = BytesInSecond.max * 8.0 / 1_000_000.0` (line 126). -/
def peakRateMbps (g : List (ℤ × ℤ)) : ℚ :=
  (peakBytesInSecond g : ℚ) * 8 / 1000000

/-- One output row of the network pair summary (lines 153-156). -/
structure NetRow where
  ipA : String
  ipB : String
  totalPackets : ℕ
  totalBytes : ℤ
  totalActiveSeconds : ℕ
  avgRateMbps : ℚ
  peakRateMbps : ℚ
deriving DecidableEq, Repr

/-- The summary table of `process_all_pairs_file`, one row per canonical
pair key. -/
def networkSummary (ps : List Packet) : List NetRow :=
  let ks := extractPackets ps
  (pairKeys ks).map (fun k =>
    let g := netGroup ks k
    ⟨k.1, k.2, g.length, netTotalBytes g, netActiveSeconds g,
      avgRateMbps g, peakRateMbps g⟩)

theorem keyPacket_swap (p : Packet) : keyPacket (swapPacket p) = keyPacket p := by
  rcases lt_trichotomy p.src p.dst with h | h | h
  · have h1 : p.src.data < p.dst.data := String.lt_iff_toList_lt.mp h
    have h2 : ¬ p.dst.data < p.src.data :=
      fun hc => lt_asymm h (String.lt_iff_toList_lt.mpr hc)
    simp [keyPacket, swapPacket, create_canonical_pair, h1, h2]
  · simp [keyPacket, swapPacket, create_canonical_pair, h]
  · have h1 : p.dst.data < p.src.data := String.lt_iff_toList_lt.mp h
    have h2 : ¬ p.src.data < p.dst.data :=
      fun hc => lt_asymm h (String.lt_iff_toList_lt.mpr hc)
    simp [keyPacket, swapPacket, create_canonical_pair, h1, h2]

/-- C6: the canonical pair key is symmetric — `pair(x,y) = pair(y,x)` for
all addresses — hence reversing the direction of every packet leaves the
extracted keyed records, and therefore the whole per-pair summary,
unchanged: `(x,y)` and `(y,x)` traffic lands in one identical group. -/
theorem c6_canonical_pair_symmetry :
    (∀ x y : String, create_canonical_pair x y = create_canonical_pair y x) ∧
    (∀ ps : List Packet, extractPackets (ps.map swapPacket) = extractPackets ps) ∧
    (∀ ps : List Packet, networkSummary (ps.map swapPacket) = networkSummary ps) := by
  have hpair : ∀ x y : String, create_canonical_pair x y = create_canonical_pair y x := by
    intro x y
    rcases lt_trichotomy x y with h | h | h
    · have h1 : x.data < y.data := String.lt_iff_toList_lt.mp h
      have h2 : ¬ y.data < x.data :=
        fun hc => lt_asymm h (String.lt_iff_toList_lt.mpr hc)
      simp [create_canonical_pair, h1, h2]
    · simp [create_canonical_pair, h]
    · have h1 : y.data < x.data := String.lt_iff_toList_lt.mp h
      have h2 : ¬ x.data < y.data :=
        fun hc => lt_asymm h (String.lt_iff_toList_lt.mpr hc)
      simp [create_canonical_pair, h1, h2]
  have hext : ∀ ps : List Packet,
      extractPackets (ps.map swapPacket) = extractPackets ps := by
    intro ps
    unfold extractPackets
    rw [List.map_map]
    exact List.map_congr_left (fun p _ => keyPacket_swap p)
  refine ⟨hpair, hext, ?_⟩
  intro ps
  unfold networkSummary
  rw [hext ps]

theorem canonical_pair_fst_le_snd (a b : String) :
    (create_canonical_pair a b).1 ≤ (create_canonical_pair a b).2 := by
  unfold create_canonical_pair
  by_cases h : b.toList < a.toList
  · rw [if_pos h]
    exact le_of_lt (String.lt_iff_toList_lt.mpr h)
  · rw [if_neg h]
    exact le_of_not_lt (fun hc => h (String.lt_iff_toList_lt.mp hc))

/-- C10: every row of the network-pair summary has `IP_A ≤ IP_B` in the
string order — the two members of each canonical pair appear in sorted
order. -/
theorem c10_summary_rows_sorted (ps : List Packet) (row : NetRow)
    (h : row ∈ networkSummary ps) : row.ipA ≤ row.ipB := by
  unfold networkSummary at h
  rcases List.mem_map.mp h with ⟨k, hk, hrow⟩
  have hA : row.ipA = k.1 := by rw [← hrow]
  have hB : row.ipB = k.2 := by rw [← hrow]
  rw [hA, hB]
  unfold pairKeys at hk
  rw [mem_dedupAdj, mem_sortLe] at hk
  rcases List.mem_map.mp hk with ⟨q, hq, hkq⟩
  rcases List.mem_map.mp hq with ⟨p, _, hqp⟩
  have h1 : k.1 = (create_canonical_pair p.src p.dst).1 := by
    rw [← hkq, ← hqp]; rfl
  have h2 : k.2 = (create_canonical_pair p.src p.dst).2 := by
    rw [← hkq, ← hqp]; rfl
  rw [h1, h2]
  exact canonical_pair_fst_le_snd p.src p.dst

/-- Witness for C10 at a concrete packet list. -/
theorem c10_summary_rows_sorted_witness :
    networkSummary [⟨0, 5, "b", "a"⟩] =
      [⟨"a", "b", 1, 5, 1, avgRateMbps [(0, 5)], peakRateMbps [(0, 5)]⟩] ∧
    (⟨"a", "b", 1, 5, 1, avgRateMbps [(0, 5)], peakRateMbps [(0, 5)]⟩ : NetRow).ipA ≤
      (⟨"a", "b", 1, 5, 1, avgRateMbps [(0, 5)], peakRateMbps [(0, 5)]⟩ : NetRow).ipB := by
  have hab : ("a".toList < "b".toList) := by decide
  have heval : networkSummary [⟨0, 5, "b", "a"⟩] =
      [⟨"a", "b", 1, 5, 1, avgRateMbps [(0, 5)], peakRateMbps [(0, 5)]⟩] := by
    simp [networkSummary, extractPackets, keyPacket, create_canonical_pair, hab,
      pairKeys, sortLe, insertLe, dedupAdj, pairLe, netGroup, netTotalBytes,
      bucketSums, secondsOf, sortedDistinct, sortAsc, bytesInSecond,
      netActiveSeconds, listMax, foldMax, List.filter]
    decide
  refine ⟨heval, ?_⟩
  refine c10_summary_rows_sorted [⟨0, 5, "b", "a"⟩] _ ?_
  rw [heval]
  exact List.mem_singleton_self _

/-! Per-entity time-weighted CPU load: embedding of `txt-cpu-load.py`. -/

/-- One extracted CPU-load record (lines 42-46 of txt-cpu-load.py):
device id, integer timestamp, first element of the `Load` list. -/
structure CpuRec where
  dev : String
  ts : ℤ
  load : ℚ
deriving DecidableEq, Repr

/-- Sorted distinct string keys in Python string order (code-point
lexicographic, written on `String.toList`); the key order of `groupby`. -/
def strKeys (l : List String) : List String :=
  dedupAdj (sortLe (fun a b => decide (a.toList ≤ b.toList)) l)

/-- Sort one group's `(timestamp, value)` samples by timestamp — the
group-local effect of `df.sort_values(by=['DevID', 'TimeStamp'])`
(line 77). -/
def sortGroup (g : List (ℤ × ℚ)) : List (ℤ × ℚ) :=
  sortLe (fun p q => decide (p.1 ≤ q.1)) g

/-- The per-entity-next-sample durations of a sorted group, as built by
`groupby('DevID')['TimeStamp'].shift(-1)` and subtraction (lines 83-84):
sample `i` gets `t_{i+1} - t_i` seconds, the last sample of the group gets
NaN (`none`).  Timestamps are whole seconds, so durations are integers. -/
def shiftDur : List (ℤ × ℚ) → List (Option ℤ)
  | [] => []
  | [_] => [none]
  | p :: q :: r => some (q.1 - p.1) :: shiftDur (q :: r)

/-- Groupwise sum of `LoadTimesDuration = CpuLoad * Duration.fillna(0)`
(lines 85 and 93). -/
def sumLoadTimesDur (l : List (ℤ × ℚ)) : ℚ :=
  (List.zipWith (fun p d => p.2 * ((d.getD 0 : ℤ) : ℚ)) l (shiftDur l)).sum

/-- `TotalDurationSeconds`: groupwise sum of the `Duration` column
(line 94); the pandas sum skips the last sample's NaN. -/
def totalDurationSeconds (l : List (ℤ × ℚ)) : ℤ :=
  ((shiftDur l).filterMap id).sum

/-- `AvgCpuUsage` (lines 99-103): `SumLoadTimesDuration /
TotalDurationSeconds` when the total duration is positive, otherwise the
literal fallback `0.0`. -/
def avgCpuUsage (g : List (ℤ × ℚ)) : ℚ :=
  let s := sortGroup g
  if 0 < totalDurationSeconds s then
    sumLoadTimesDur s / ((totalDurationSeconds s : ℤ) : ℚ)
  else 0

/-- `MaxCpuUsage` (line 95): max of the raw values of the group. -/
def maxCpuUsage (g : List (ℤ × ℚ)) : ℚ :=
  listMax (g.map Prod.snd) 0

/-- One row of the cpu-load summary (lines 105-108). -/
structure CpuRow where
  dev : String
  avgCpuUsage : ℚ
  maxCpuUsage : ℚ
  dataPoints : ℕ
  totalDurationSeconds : ℤ
deriving DecidableEq, Repr

/-- The summary of `process_cpu_load_file_time_weighted` (lines 92-108):
one row per device id, in sorted groupby key order. -/
def cpuLoadSummary (records : List CpuRec) : List CpuRow :=
  (strKeys (records.map (fun r => r.dev))).map (fun d =>
    let g := (records.filter (fun r => decide (r.dev = d))).map
      (fun r => (r.ts, r.load))
    ⟨d, avgCpuUsage g, maxCpuUsage g, g.length,
      totalDurationSeconds (sortGroup g)⟩)

/-- Modelled from the spec text of §4.2 (for comparison with `shiftDur`):
`duration_i = t_{i+1} - t_i` for `i < n`, and `duration_n = 0` for the last
sample of the group. -/
def specDurations (l : List (ℤ × ℚ)) : List ℤ :=
  List.zipWith (fun p q => q.1 - p.1) l l.tail
    ++ (if l.isEmpty then [] else [0])

/-- Modelled from the spec text of §4.3:
`weighted_avg = Σ (value_i · duration_i) / Σ duration_i`. -/
def specWeightedAvg (l : List (ℤ × ℚ)) : ℚ :=
  (List.zipWith (fun p d => p.2 * ((d : ℤ) : ℚ)) l (specDurations l)).sum /
    (((specDurations l).sum : ℤ) : ℚ)

theorem specDurations_cons (p q : ℤ × ℚ) (r : List (ℤ × ℚ)) :
    specDurations (p :: q :: r) = (q.1 - p.1) :: specDurations (q :: r) := by
  simp [specDurations]

theorem sumLoadTimesDur_eq_spec :
    ∀ l : List (ℤ × ℚ), sumLoadTimesDur l =
      (List.zipWith (fun p d => p.2 * ((d : ℤ) : ℚ)) l (specDurations l)).sum
  | [] => by simp [sumLoadTimesDur, specDurations, shiftDur]
  | [p] => by simp [sumLoadTimesDur, specDurations, shiftDur]
  | p :: q :: r => by
    have hstep : sumLoadTimesDur (p :: q :: r) =
        p.2 * ((q.1 - p.1 : ℤ) : ℚ) + sumLoadTimesDur (q :: r) := rfl
    rw [hstep, sumLoadTimesDur_eq_spec (q :: r), specDurations_cons,
      List.zipWith_cons_cons, List.sum_cons]

theorem totalDurationSeconds_eq_spec :
    ∀ l : List (ℤ × ℚ), totalDurationSeconds l = (specDurations l).sum
  | [] => by simp [totalDurationSeconds, specDurations, shiftDur]
  | [p] => by simp [totalDurationSeconds, specDurations, shiftDur]
  | p :: q :: r => by
    have hstep : totalDurationSeconds (p :: q :: r) =
        q.1 - p.1 + totalDurationSeconds (q :: r) := rfl
    rw [hstep, totalDurationSeconds_eq_spec (q :: r), specDurations_cons,
      List.sum_cons]

/-- C1: under the per-entity-next-sample policy the reported time-weighted
average of a group with positive total duration equals
`Σ (value_i · duration_i) / Σ duration_i`, where `duration_i = t_{i+1} - t_i`
within the (sorted) group and the last sample's duration is 0; for the group
`[(0,10), (10,20), (20,30)]` the average is `15`. -/
theorem c1_per_entity_weighted_avg :
    (∀ g : List (ℤ × ℚ), 0 < totalDurationSeconds (sortGroup g) →
      avgCpuUsage g = specWeightedAvg (sortGroup g)) ∧
    avgCpuUsage [(0, 10), (10, 20), (20, 30)] = 15 := by
  constructor
  · intro g h
    rw [avgCpuUsage]
    simp only [h, if_true]
    rw [specWeightedAvg, sumLoadTimesDur_eq_spec, totalDurationSeconds_eq_spec]
  · have hpos : (0 : ℤ) < totalDurationSeconds
        (sortGroup [(0, 10), (10, 20), (20, 30)]) := by decide
    rw [avgCpuUsage]
    simp only [hpos, if_true]
    have hdur : totalDurationSeconds (sortGroup [(0, 10), (10, 20), (20, 30)]) = 20 := by
      decide
    have hsd : shiftDur (sortGroup [(0, 10), (10, 20), (20, 30)]) =
        [some 10, some 10, none] := by decide
    rw [hdur]
    show sumLoadTimesDur (sortGroup [(0, 10), (10, 20), (20, 30)]) / ((20 : ℤ) : ℚ) = 15
    rw [show sortGroup [((0 : ℤ), (10 : ℚ)), (10, 20), (20, 30)] =
      [(0, 10), (10, 20), (20, 30)] from by decide]
    rw [sumLoadTimesDur]
    rw [show shiftDur [((0 : ℤ), (10 : ℚ)), (10, 20), (20, 30)] =
      [some 10, some 10, none] from by decide]
    simp only [List.zipWith_cons_cons, List.zipWith_nil_right, List.sum_cons,
      List.sum_nil, Option.getD_some, Option.getD_none]
    norm_num

/-- Witness for C1 at the spec scenario group. -/
theorem c1_per_entity_weighted_avg_witness :
    (0 : ℤ) < totalDurationSeconds (sortGroup [(0, 10), (10, 20), (20, 30)]) ∧
    avgCpuUsage [(0, 10), (10, 20), (20, 30)] =
      specWeightedAvg (sortGroup [(0, 10), (10, 20), (20, 30)]) :=
  ⟨by decide, c1_per_entity_weighted_avg.1 [(0, 10), (10, 20), (20, 30)] (by decide)⟩

/-- C3 counterexample: in txt-cpu-load.py an entity whose total weighting
duration is 0 (here a single-sample entity) is reported with
`AvgCpuUsage = 0.0` — the literal zero fallback of lines 99-103 — not with
an unavailable marker; the maximum raw value 5 is reported alongside. -/
theorem c3_zero_duration_avg_is_zero :
    cpuLoadSummary [⟨"d1", 0, 5⟩] = [⟨"d1", 0, 5, 1, 0⟩] := by decide

/-! Per-global-next-timestamp durations: embedding of `txt-proc-cpu.py`
(lines 89-93) and `txt-proc-mem.py` (lines 121-130). -/

/-- Adjacent pairs of a list: the model of
`zip(distinct_timestamps[:-1], distinct_timestamps[1:])`. -/
def tsPairs : List ℤ → List (ℤ × ℤ)
  | [] => []
  | [_] => []
  | a :: b :: r => (a, b) :: tsPairs (b :: r)

/-- The `ts_map` lookup: the entry of the distinct timestamp `t`, which is
the next distinct timestamp in sorted order; `none` for the maximum
timestamp (absent from the map keys) and for timestamps outside the map. -/
def nextTsMap (l : List ℤ) (t : ℤ) : Option ℤ :=
  (tsPairs l).lookup t

/-- Duration assignment of txt-proc-cpu.py lines 90-93 for a sample at
timestamp `t`: `map(ts_map)`, subtraction, `fillna(0)` (the NaN of
unmapped timestamps), `clip(lower=0)`.  `l` is the sorted distinct
timestamp list of the whole run. -/
def globalDuration (l : List ℤ) (t : ℤ) : ℤ :=
  max (match nextTsMap l t with
    | some t2 => t2 - t
    | none => 0) 0

/-- Duration assignment of txt-proc-mem.py lines 121-130 for a sample at
timestamp `t`: `map(ts_map)`, `fillna(max_ts)`, subtraction, forcing
duration 0 on rows at `max_ts`, `clip(lower=0)`. -/
def globalDurationMem (l : List ℤ) (t : ℤ) : ℤ :=
  let maxT := l.getLast?.getD 0
  let nxt := (nextTsMap l t).getD maxT
  max (if t = maxT then 0 else nxt - t) 0

theorem chain_lt_head_lt {α : Type} [LinearOrder α] :
    ∀ (a : α) (l : List α), List.Chain' (· < ·) (a :: l) → ∀ u ∈ l, a < u
  | _, [] => by intro _ u hu; simp at hu
  | a, b :: r => by
    intro hc u hu
    have hab : a < b := (List.chain'_cons.mp hc).1
    have ht : List.Chain' (· < ·) (b :: r) := (List.chain'_cons.mp hc).2
    rcases List.mem_cons.mp hu with rfl | hu
    · exact hab
    · exact lt_trans hab (chain_lt_head_lt b r ht u hu)

theorem lookup_tsPairs :
    ∀ l : List ℤ, List.Chain' (· < ·) l → ∀ t ∈ l,
      nextTsMap l t = (l.filter (fun u => decide (t < u))).head?
  | [] => by intro _ t ht; simp at ht
  | [a] => by
    intro _ t ht
    rcases List.mem_singleton.mp ht with rfl
    simp [nextTsMap, tsPairs, List.lookup, List.filter]
  | a :: b :: r => by
    intro hc t ht
    have hab : a < b := (List.chain'_cons.mp hc).1
    have htail : List.Chain' (· < ·) (b :: r) := (List.chain'_cons.mp hc).2
    rcases List.mem_cons.mp ht with rfl | ht
    · show ((t, b) :: tsPairs (b :: r)).lookup t =
        ((t :: b :: r).filter (fun u => decide (t < u))).head?
      rw [show ((t, b) :: tsPairs (b :: r)).lookup t = some b from by
        simp [List.lookup]]
      rw [show (t :: b :: r).filter (fun u => decide (t < u)) =
          b :: r.filter (fun u => decide (t < u)) from by
        simp [List.filter_cons, hab, lt_irrefl]]
      rfl
    · have hat : a < t := chain_lt_head_lt a (b :: r) hc t ht
      have hta : ¬ (t < a : Prop) := not_lt_of_gt hat
      have hne : (t == a) = false := by
        simp only [beq_eq_false_iff_ne]
        exact ne_of_gt hat
      have hstep : nextTsMap (a :: b :: r) t = nextTsMap (b :: r) t := by
        show ((a, b) :: tsPairs (b :: r)).lookup t = nextTsMap (b :: r) t
        simp only [List.lookup, hne]
        rfl
      rw [hstep, lookup_tsPairs (b :: r) htail t ht]
      rw [show (a :: b :: r).filter (fun u => decide (t < u)) =
          (b :: r).filter (fun u => decide (t < u)) from by
        simp [List.filter_cons, hta]]

/-- C2: under the per-global-next-timestamp policy, every sample timestamp
`t` of the run is assigned duration `t' - t` where `t'` is the next
distinct global timestamp (the least distinct timestamp above `t`,
regardless of entity), and samples at the maximum global timestamp get
duration 0 — in both the txt-proc-cpu.py and the txt-proc-mem.py
realization. -/
theorem c2_per_global_durations (tss : List ℤ) (t m : ℤ) (ht : t ∈ tss)
    (hm : (sortedDistinct tss).getLast? = some m) :
    (∀ u ∈ tss, u ≤ m) ∧
    (t = m → globalDuration (sortedDistinct tss) t = 0 ∧
      globalDurationMem (sortedDistinct tss) t = 0) ∧
    (t ≠ m → ∃ t',
      ((sortedDistinct tss).filter (fun u => decide (t < u))).head? = some t' ∧
      t < t' ∧ (∀ u ∈ tss, t < u → t' ≤ u) ∧
      globalDuration (sortedDistinct tss) t = t' - t ∧
      globalDurationMem (sortedDistinct tss) t = t' - t) := by
  have hchain : List.Chain' (· < ·) (sortedDistinct tss) :=
    chain_lt_sortedDistinct tss
  have htl : t ∈ sortedDistinct tss := (mem_sortedDistinct t tss).mpr ht
  have hbound : ∀ u ∈ tss, u ≤ m := by
    intro u hu
    exact chain_lt_le_getLast (sortedDistinct tss) m hchain hm u
      ((mem_sortedDistinct u tss).mpr hu)
  refine ⟨hbound, ?_, ?_⟩
  · intro hEq
    subst hEq
    have hfil : (sortedDistinct tss).filter (fun u => decide (t < u)) = [] := by
      refine List.filter_eq_nil_iff.mpr ?_
      intro u hu
      simp only [decide_eq_true_eq]
      exact not_lt_of_ge (chain_lt_le_getLast (sortedDistinct tss) t hchain hm u hu)
    have hnone : nextTsMap (sortedDistinct tss) t = none := by
      rw [lookup_tsPairs (sortedDistinct tss) hchain t htl, hfil]
      rfl
    constructor
    · rw [globalDuration, hnone]
      simp
    · rw [globalDurationMem, hm]
      simp
  · intro hne
    have htm : t < m :=
      lt_of_le_of_ne (chain_lt_le_getLast (sortedDistinct tss) m hchain hm t htl) hne
    have hmem : m ∈ (sortedDistinct tss).filter (fun u => decide (t < u)) :=
      List.mem_filter.mpr ⟨List.mem_of_mem_getLast? hm, decide_eq_true htm⟩
    obtain ⟨t', hhead⟩ : ∃ t',
        ((sortedDistinct tss).filter (fun u => decide (t < u))).head? = some t' := by
      cases hfl : (sortedDistinct tss).filter (fun u => decide (t < u)) with
      | nil => rw [hfl] at hmem; simp at hmem
      | cons x xs => exact ⟨x, rfl⟩
    have hmemf : t' ∈ (sortedDistinct tss).filter (fun u => decide (t < u)) :=
      List.mem_of_mem_head? hhead
    have htt : t < t' := of_decide_eq_true (List.mem_filter.mp hmemf).2
    have hminimal : ∀ u ∈ tss, t < u → t' ≤ u := by
      intro u hu htu
      have huf : u ∈ (sortedDistinct tss).filter (fun u => decide (t < u)) :=
        List.mem_filter.mpr ⟨(mem_sortedDistinct u tss).mpr hu, decide_eq_true htu⟩
      have hfchain : List.Chain' (· < ·)
          ((sortedDistinct tss).filter (fun u => decide (t < u))) :=
        hchain.sublist (List.filter_sublist _)
      cases hfl : (sortedDistinct tss).filter (fun u => decide (t < u)) with
      | nil => rw [hfl] at huf; simp at huf
      | cons x xs =>
        rw [hfl] at hhead huf hfchain
        have hx : x = t' := by
          simpa using hhead
        rcases List.mem_cons.mp huf with rfl | huf
        · exact le_of_eq hx.symm
        · exact le_of_lt (hx ▸ chain_lt_head_lt x xs hfchain u huf)
    have hsome : nextTsMap (sortedDistinct tss) t = some t' := by
      rw [lookup_tsPairs (sortedDistinct tss) hchain t htl, hhead]
    refine ⟨t', hhead, htt, hminimal, ?_, ?_⟩
    · rw [globalDuration, hsome]
      exact max_eq_left (sub_nonneg.mpr (le_of_lt htt))
    · rw [globalDurationMem, hm, hsome]
      simp only [Option.getD_some]
      rw [if_neg (by simpa using hne)]
      exact max_eq_left (sub_nonneg.mpr (le_of_lt htt))

/-- Witness for C2 on a concrete run with unsorted timestamps. -/
theorem c2_per_global_durations_witness :
    (10 : ℤ) ∈ [(10 : ℤ), 0, 20] ∧
    (sortedDistinct [(10 : ℤ), 0, 20]).getLast? = some 20 ∧
    ((∀ u ∈ [(10 : ℤ), 0, 20], u ≤ 20) ∧
    ((10 : ℤ) = 20 → globalDuration (sortedDistinct [(10 : ℤ), 0, 20]) 10 = 0 ∧
      globalDurationMem (sortedDistinct [(10 : ℤ), 0, 20]) 10 = 0) ∧
    ((10 : ℤ) ≠ 20 → ∃ t',
      ((sortedDistinct [(10 : ℤ), 0, 20]).filter (fun u => decide ((10 : ℤ) < u))).head? = some t' ∧
      (10 : ℤ) < t' ∧ (∀ u ∈ [(10 : ℤ), 0, 20], (10 : ℤ) < u → t' ≤ u) ∧
      globalDuration (sortedDistinct [(10 : ℤ), 0, 20]) 10 = t' - 10 ∧
      globalDurationMem (sortedDistinct [(10 : ℤ), 0, 20]) 10 = t' - 10)) :=
  ⟨by decide, by decide,
    c2_per_global_durations [(10 : ℤ), 0, 20] 10 20 (by decide) (by decide)⟩

/-! Per-program CPU usage: embedding of `txt-proc-cpu.py`. -/

/-- One extracted process-CPU record (lines 38-42 of txt-proc-cpu.py). -/
structure ProcRec where
  name : String
  ts : ℤ
  cpu : ℚ
deriving DecidableEq, Repr

theorem mem_strKeys (x : String) (l : List String) : x ∈ strKeys l ↔ x ∈ l := by
  rw [strKeys, mem_dedupAdj, mem_sortLe]

/-- The records of one program-name group. -/
def procCpuGroup (records : List ProcRec) (n : String) : List ProcRec :=
  records.filter (fun r => decide (r.name = n))

/-- One row of the proc-cpu summary.  `avg = none` models the NaN written
into `TimeWeightedAvgCpuPercent` by the degenerate branches; `duration`
and `dataPoints` are `none` in the degenerate summary, whose column set
(lines 72-74) does not carry them. -/
structure ProcRow where
  name : String
  avg : Option ℚ
  maxCpu : ℚ
  duration : Option ℤ
  dataPoints : Option ℕ
deriving Repr

/-- The degenerate-branch summary (lines 70-74 and 82-86 of
txt-proc-cpu.py): per name, `TimeWeightedAvgCpuPercent = NaN` and the max
raw CPU value. -/
def procCpuNaNSummary (records : List ProcRec) : List ProcRow :=
  (strKeys (records.map (fun r => r.name))).map (fun n =>
    ⟨n, none, listMax ((procCpuGroup records n).map (fun r => r.cpu)) 0,
      none, none⟩)

/-- `process_program_cpu_usage` (txt-proc-cpu.py): `none` when no records
were extracted; the NaN summary when fewer than two distinct timestamps
exist, or when the total span is not positive; otherwise the full
per-global time-weighted summary.  (The source additionally orders the
full-branch rows by descending `TotalCpuWeighted`; no stated property
depends on row order, which is kept as sorted-name order here.) -/
def process_program_cpu_usage (records : List ProcRec) : Option (List ProcRow) :=
  if records.isEmpty then none
  else
    let l := sortedDistinct (records.map (fun r => r.ts))
    if l.length < 2 then some (procCpuNaNSummary records)
    else if l.getLast?.getD 0 - l.head?.getD 0 ≤ 0 then
      some (procCpuNaNSummary records)
    else
      some ((strKeys (records.map (fun r => r.name))).map (fun n =>
        let g := procCpuGroup records n
        let w : ℚ := (g.map (fun r => r.cpu * ((globalDuration l r.ts : ℤ) : ℚ))).sum
        let d : ℤ := (g.map (fun r => globalDuration l r.ts)).sum
        ⟨n, some (w / ((d : ℤ) : ℚ)), listMax (g.map (fun r => r.cpu)) 0,
          some d, some g.length⟩))

/-- C3 (amended): in txt-proc-cpu.py a degenerate run (fewer than two
distinct timestamps) reports every program's time-weighted average as
unavailable (NaN) while the per-program maximum raw value is still
computed — reported, bounded, and attained; in txt-cpu-load.py, however,
an entity whose total weighting duration is 0 gets the literal average
`0.0`, not an unavailable marker (its max still being reported, see
`c3_zero_duration_avg_is_zero`). -/
theorem c3_degenerate_stats :
    (∀ records : List ProcRec, records ≠ [] →
      (sortedDistinct (records.map (fun r => r.ts))).length < 2 →
      ∃ rows, process_program_cpu_usage records = some rows ∧
        rows.length = (strKeys (records.map (fun r => r.name))).length ∧
        ∀ row ∈ rows, row.avg = none ∧
          (∀ r ∈ records, r.name = row.name → r.cpu ≤ row.maxCpu) ∧
          (∃ r ∈ records, r.name = row.name ∧ r.cpu = row.maxCpu)) ∧
    (∀ g : List (ℤ × ℚ), totalDurationSeconds (sortGroup g) = 0 →
      avgCpuUsage g = 0) := by
  constructor
  · intro records hne hdeg
    have hemp : records.isEmpty = false := by
      cases records with
      | nil => exact absurd rfl hne
      | cons a r => rfl
    refine ⟨procCpuNaNSummary records, ?_, ?_, ?_⟩
    · rw [process_program_cpu_usage]
      simp only [hemp, Bool.false_eq_true, if_false, hdeg, if_true]
    · exact List.length_map _ _
    · intro row hrow
      rcases List.mem_map.mp hrow with ⟨n, hn, hrne⟩
      have havg : row.avg = none := by rw [← hrne]
      have hmaxv : row.maxCpu =
          listMax ((procCpuGroup records n).map (fun r => r.cpu)) 0 := by
        rw [← hrne]
      have hname : row.name = n := by rw [← hrne]
      refine ⟨havg, ?_, ?_⟩
      · intro r hr hrn
        rw [hmaxv]
        refine listMax_le_of_mem _ _ _ ?_
        refine List.mem_map.mpr ⟨r, ?_, rfl⟩
        refine List.mem_filter.mpr ⟨hr, ?_⟩
        rw [hname] at hrn
        exact decide_eq_true hrn
      · have hnn : n ∈ records.map (fun r => r.name) :=
          (mem_strKeys n _).mp hn
        rcases List.mem_map.mp hnn with ⟨r0, hr0, hr0n⟩
        have hgrp : r0 ∈ procCpuGroup records n :=
          List.mem_filter.mpr ⟨hr0, decide_eq_true hr0n⟩
        have hgne : (procCpuGroup records n).map (fun r => r.cpu) ≠ [] := by
          intro hcontra
          rw [List.map_eq_nil_iff] at hcontra
          rw [hcontra] at hgrp
          simp at hgrp
        have hmem := listMax_mem ((procCpuGroup records n).map (fun r => r.cpu)) 0 hgne
        rcases List.mem_map.mp hmem with ⟨r1, hr1, hr1v⟩
        refine ⟨r1, (List.mem_filter.mp hr1).1, ?_, ?_⟩
        · rw [hname]
          exact of_decide_eq_true (List.mem_filter.mp hr1).2
        · rw [hmaxv, hr1v]
  · intro g h
    rw [avgCpuUsage]
    simp only [h, lt_irrefl, if_false]

/-- Witness for C3 (amended) at a concrete one-timestamp run and a concrete
zero-duration group. -/
theorem c3_degenerate_stats_witness :
    (([⟨"p1", 0, 7⟩, ⟨"p2", 0, 3⟩] : List ProcRec) ≠ [] ∧
      (sortedDistinct (([⟨"p1", 0, 7⟩, ⟨"p2", 0, 3⟩] : List ProcRec).map
        (fun r => r.ts))).length < 2 ∧
      ∃ rows, process_program_cpu_usage [⟨"p1", 0, 7⟩, ⟨"p2", 0, 3⟩] = some rows ∧
        rows.length = (strKeys (([⟨"p1", 0, 7⟩, ⟨"p2", 0, 3⟩] : List ProcRec).map
          (fun r => r.name))).length ∧
        ∀ row ∈ rows, row.avg = none ∧
          (∀ r ∈ ([⟨"p1", 0, 7⟩, ⟨"p2", 0, 3⟩] : List ProcRec),
            r.name = row.name → r.cpu ≤ row.maxCpu) ∧
          (∃ r ∈ ([⟨"p1", 0, 7⟩, ⟨"p2", 0, 3⟩] : List ProcRec),
            r.name = row.name ∧ r.cpu = row.maxCpu)) ∧
    (totalDurationSeconds (sortGroup [((0 : ℤ), (5 : ℚ))]) = 0 ∧
      avgCpuUsage [((0 : ℤ), (5 : ℚ))] = 0) :=
  ⟨⟨List.cons_ne_nil _ _, by decide,
    c3_degenerate_stats.1 [⟨"p1", 0, 7⟩, ⟨"p2", 0, 3⟩] (List.cons_ne_nil _ _) (by decide)⟩,
   ⟨rfl, c3_degenerate_stats.2 [((0 : ℤ), (5 : ℚ))] rfl⟩⟩

/-! Duration non-negativity: claim C7. -/

theorem chain_fst_sortGroup (g : List (ℤ × ℚ)) :
    List.Chain' (fun p q : ℤ × ℚ => p.1 ≤ q.1) (sortGroup g) :=
  chain_le_sortLe (Prod.fst : ℤ × ℚ → ℤ) g

theorem shiftDur_nonneg_of_chain :
    ∀ l : List (ℤ × ℚ), List.Chain' (fun p q : ℤ × ℚ => p.1 ≤ q.1) l →
      ∀ d ∈ (shiftDur l).filterMap id, 0 ≤ d
  | [] => by intro _ d hd; simp [shiftDur] at hd
  | [p] => by intro _ d hd; simp [shiftDur] at hd
  | p :: q :: r => by
    intro hc d hd
    have hpq : p.1 ≤ q.1 := (List.chain'_cons.mp hc).1
    have htail : List.Chain' (fun p q : ℤ × ℚ => p.1 ≤ q.1) (q :: r) :=
      (List.chain'_cons.mp hc).2
    have hstep : (shiftDur (p :: q :: r)).filterMap id =
        (q.1 - p.1) :: (shiftDur (q :: r)).filterMap id := rfl
    rw [hstep] at hd
    rcases List.mem_cons.mp hd with rfl | hd
    · exact sub_nonneg.mpr hpq
    · exact shiftDur_nonneg_of_chain (q :: r) htail d hd

/-- C7: every assigned duration is nonnegative for any input — the
per-entity pipeline (txt-cpu-load.py) sorts each group before taking
next-sample differences, and the per-global assignments (txt-proc-cpu.py,
txt-proc-mem.py) clip at zero — and equal consecutive timestamps in a
sorted group yield duration 0, not an error. -/
theorem c7_duration_nonneg :
    (∀ g : List (ℤ × ℚ), ∀ d ∈ (shiftDur (sortGroup g)).filterMap id, 0 ≤ d) ∧
    (∀ (l : List ℤ) (t : ℤ), 0 ≤ globalDuration l t ∧ 0 ≤ globalDurationMem l t) ∧
    (∀ (t : ℤ) (v1 v2 : ℚ) (rest : List (ℤ × ℚ)),
      (shiftDur ((t, v1) :: (t, v2) :: rest)).head? = some (some 0)) := by
  refine ⟨?_, ?_, ?_⟩
  · intro g
    exact shiftDur_nonneg_of_chain (sortGroup g) (chain_fst_sortGroup g)
  · intro l t
    constructor
    · exact le_max_right _ 0
    · exact le_max_right _ 0
  · intro t v1 v2 rest
    simp [shiftDur]

/-- Witness for C7 at a concrete out-of-order group and a concrete
timestamp list. -/
theorem c7_duration_nonneg_witness :
    ((10 : ℤ) ∈ (shiftDur (sortGroup [((10 : ℤ), (1 : ℚ)), (0, 2)])).filterMap id ∧
      (0 : ℤ) ≤ 10) ∧
    ((0 : ℤ) ≤ globalDuration [0, 10] 0 ∧ (0 : ℤ) ≤ globalDurationMem [0, 10] 0) :=
  ⟨⟨by decide, c7_duration_nonneg.1 [((10 : ℤ), (1 : ℚ)), (0, 2)] 10 (by decide)⟩,
    c7_duration_nonneg.2.1 [0, 10] 0⟩

/-! Rate-style windowed peaks and averages: claim C4. -/

theorem bytesInSecond_cons (p : ℤ × ℤ) (l : List (ℤ × ℤ)) (t : ℤ) :
    bytesInSecond (p :: l) t = (if p.1 = t then p.2 else 0) + bytesInSecond l t := by
  rw [bytesInSecond, bytesInSecond, List.filter_cons]
  by_cases h : p.1 = t
  · simp [h]
  · simp [h]

theorem sum_map_add_int (f g : ℤ → ℤ) :
    ∀ ks : List ℤ, (ks.map (fun t => f t + g t)).sum = (ks.map f).sum + (ks.map g).sum := by
  intro ks
  induction ks with
  | nil => simp
  | cons a r ih =>
    simp only [List.map_cons, List.sum_cons, ih]
    ring

theorem sum_ite_zero_of_not_mem (a x : ℤ) :
    ∀ ks : List ℤ, a ∉ ks → (ks.map (fun t => if a = t then x else 0)).sum = 0 := by
  intro ks
  induction ks with
  | nil => intro _; simp
  | cons b r ih =>
    intro hna
    have hab : ¬ a = b := fun he => hna (he ▸ List.mem_cons_self b r)
    have hnr : a ∉ r := fun hr => hna (List.mem_cons_of_mem b hr)
    simp only [List.map_cons, List.sum_cons, if_neg hab, ih hnr, zero_add]

theorem sum_ite_single (a x : ℤ) :
    ∀ ks : List ℤ, List.Pairwise (fun u v : ℤ => u ≠ v) ks → a ∈ ks →
      (ks.map (fun t => if a = t then x else 0)).sum = x := by
  intro ks
  induction ks with
  | nil => intro _ ha; simp at ha
  | cons b r ih =>
    intro hp ha
    rcases List.mem_cons.mp ha with rfl | har
    · have hnr : a ∉ r := by
        intro hmem
        exact (List.pairwise_cons.mp hp).1 a hmem rfl
      simp [List.map_cons, List.sum_cons,
        sum_ite_zero_of_not_mem a x r hnr]
    · have hab : ¬ a = b := by
        intro he
        exact (List.pairwise_cons.mp hp).1 a har he.symm
      simp only [List.map_cons, List.sum_cons, if_neg hab,
        ih (List.pairwise_cons.mp hp).2 har, zero_add]

theorem bucket_conservation :
    ∀ (l : List (ℤ × ℤ)) (ks : List ℤ),
      List.Pairwise (fun u v : ℤ => u ≠ v) ks → (∀ p ∈ l, p.1 ∈ ks) →
      (ks.map (bytesInSecond l)).sum = (l.map Prod.snd).sum := by
  intro l
  induction l with
  | nil =>
    intro ks _ _
    have hz : ks.map (bytesInSecond []) = ks.map (fun _ => 0) := by
      refine List.map_congr_left ?_
      intro t _
      rfl
    rw [hz]
    simp
  | cons p l ih =>
    intro ks hnd hcov
    have hpt : (ks.map (bytesInSecond (p :: l))).sum =
        (ks.map (fun t => (if p.1 = t then p.2 else 0) + bytesInSecond l t)).sum := by
      congr 1
      refine List.map_congr_left ?_
      intro t _
      exact bytesInSecond_cons p l t
    rw [hpt, sum_map_add_int,
      sum_ite_single p.1 p.2 ks hnd (hcov p (List.mem_cons_self p l)),
      ih ks hnd (fun q hq => hcov q (List.mem_cons_of_mem p hq))]
    simp

theorem pairwise_ne_secondsOf (g : List (ℤ × ℤ)) :
    List.Pairwise (fun u v : ℤ => u ≠ v) (secondsOf g) := by
  have hchain : List.Chain' (· < ·) (secondsOf g) :=
    chain_lt_sortedDistinct (g.map Prod.fst)
  have hpw : List.Pairwise (· < ·) (secondsOf g) :=
    List.chain'_iff_pairwise.mp hchain
  exact hpw.imp (fun h => ne_of_lt h)

/-- C4: rate-style 1-second windowing per IP-pair group: the total is the
sum of the raw byte values (conservation), every bucket of the computation
holds at least one sample (so empty seconds neither enter the average's
denominator nor can raise the peak), the peak is the maximum per-bucket
sum — an upper bound attained at some bucket — and the average rate
divides the raw byte total by the active-bucket count only; the scenario
`[(0,5), (0,5), (1,7)]` gives peak bucket sum 10 and average `17/2` over
2 active buckets. -/
theorem c4_rate_windowing :
    (∀ g : List (ℤ × ℤ), netTotalBytes g = (g.map Prod.snd).sum) ∧
    (∀ g : List (ℤ × ℤ), ∀ t ∈ secondsOf g, ∃ p ∈ g, p.1 = t) ∧
    (∀ g : List (ℤ × ℤ), ∀ t ∈ secondsOf g,
      bytesInSecond g t ≤ peakBytesInSecond g) ∧
    (∀ g : List (ℤ × ℤ), g ≠ [] → peakBytesInSecond g ∈ bucketSums g) ∧
    (∀ g : List (ℤ × ℤ), 0 < netActiveSeconds g →
      avgRateMbps g = (((g.map Prod.snd).sum : ℚ) * 8) /
        ((netActiveSeconds g : ℚ) * 1000000)) ∧
    (peakBytesInSecond [(0, 5), (0, 5), (1, 7)] = 10 ∧
      netActiveSeconds [(0, 5), (0, 5), (1, 7)] = 2 ∧
      (netTotalBytes [(0, 5), (0, 5), (1, 7)] : ℚ) /
        (netActiveSeconds [(0, 5), (0, 5), (1, 7)] : ℚ) = 17 / 2) := by
  have hcons : ∀ g : List (ℤ × ℤ), netTotalBytes g = (g.map Prod.snd).sum := by
    intro g
    rw [netTotalBytes, bucketSums]
    refine bucket_conservation g (secondsOf g) (pairwise_ne_secondsOf g) ?_
    intro p hp
    rw [secondsOf, mem_sortedDistinct]
    exact List.mem_map.mpr ⟨p, hp, rfl⟩
  refine ⟨hcons, ?_, ?_, ?_, ?_, ?_, ?_, ?_⟩
  · intro g t ht
    rw [secondsOf, mem_sortedDistinct] at ht
    rcases List.mem_map.mp ht with ⟨p, hp, hpt⟩
    exact ⟨p, hp, hpt⟩
  · intro g t ht
    refine listMax_le_of_mem _ _ _ ?_
    exact List.mem_map.mpr ⟨t, ht, rfl⟩
  · intro g hg
    refine listMax_mem _ _ ?_
    intro hcontra
    rw [bucketSums, List.map_eq_nil_iff] at hcontra
    cases g with
    | nil => exact hg rfl
    | cons p r =>
      have : p.1 ∈ secondsOf (p :: r) := by
        rw [secondsOf, mem_sortedDistinct]
        exact List.mem_map.mpr ⟨p, List.mem_cons_self p r, rfl⟩
      rw [hcontra] at this
      simp at this
  · intro g hact
    rw [avgRateMbps, if_pos hact, hcons g]
  · decide
  · decide
  · rw [show netTotalBytes [(0, 5), (0, 5), (1, 7)] = 17 from by decide,
      show netActiveSeconds [(0, 5), (0, 5), (1, 7)] = 2 from by decide]
    norm_num

/-- Witness for C4 at the scenario group. -/
theorem c4_rate_windowing_witness :
    ((0 : ℤ) ∈ secondsOf [(0, 5), (0, 5), (1, 7)] ∧
      (∃ p ∈ ([((0 : ℤ), (5 : ℤ)), (0, 5), (1, 7)] : List (ℤ × ℤ)), p.1 = 0) ∧
      bytesInSecond [(0, 5), (0, 5), (1, 7)] 0 ≤
        peakBytesInSecond [(0, 5), (0, 5), (1, 7)]) ∧
    peakBytesInSecond [(0, 5), (0, 5), (1, 7)] ∈ bucketSums [(0, 5), (0, 5), (1, 7)] ∧
    (0 < netActiveSeconds [(0, 5), (0, 5), (1, 7)] ∧
      avgRateMbps [(0, 5), (0, 5), (1, 7)] =
        ((([((0 : ℤ), (5 : ℤ)), (0, 5), (1, 7)] : List (ℤ × ℤ)).map Prod.snd).sum * 8 : ℚ) /
          ((netActiveSeconds [(0, 5), (0, 5), (1, 7)] : ℚ) * 1000000)) :=
  ⟨⟨by decide, c4_rate_windowing.2.1 [(0, 5), (0, 5), (1, 7)] 0 (by decide),
      c4_rate_windowing.2.2.1 [(0, 5), (0, 5), (1, 7)] 0 (by decide)⟩,
    c4_rate_windowing.2.2.2.1 [(0, 5), (0, 5), (1, 7)] (List.cons_ne_nil _ _),
    ⟨by decide, c4_rate_windowing.2.2.2.2.1 [(0, 5), (0, 5), (1, 7)] (by decide)⟩⟩

/-! Count-style windowing: embedding of `txt-proc-new.py` and
`txt-file.py` (claims C5, C8). -/

/-- 30-second bucket start of a timestamp: the epoch-aligned bin of
`pd.Grouper(freq='30s')` (`Int.ediv` floors, as pandas bins do). -/
def bucket30 (t : ℤ) : ℤ := 30 * Int.ediv t 30

/-- Per-30-second event counts of a group (line 89 of txt-proc-new.py),
one entry per bucket holding at least one event.  The resample-style empty
bins between min and max carry count 0 and can never change the maximum of
the nonempty buckets, so the observed buckets are modelled. -/
def counts30 (tss : List ℤ) : List ℕ :=
  (sortedDistinct (tss.map bucket30)).map
    (fun b => (tss.filter (fun t => decide (bucket30 t = b))).length)

/-- `peak_per_30s` (line 92 of txt-proc-new.py). -/
def peakPer30s (tss : List ℤ) : ℕ := listMax (counts30 tss) 0

/-- `num_30s_intervals = max(1.0, duration_seconds / 30.0)` (line 103 of
txt-proc-new.py); the span is last-minus-first event time of the group. -/
def num30sIntervals (tss : List ℤ) : ℚ :=
  max 1 (((listMax tss 0 - listMin tss 0 : ℤ) : ℚ) / 30)

/-- `avg_per_30s = total / num_30s_intervals` (line 105 of
txt-proc-new.py). -/
def avgPer30s (tss : List ℤ) : ℚ :=
  (tss.length : ℚ) / num30sIntervals tss

/-- One extracted file-change record (lines 36-40 of txt-file.py). -/
structure FileRec where
  dev : String
  ts : ℤ
deriving DecidableEq, Repr

/-- 1-minute bucket start: the epoch-aligned bin of
`pd.Grouper(freq='1min')` (line 110 of txt-file.py). -/
def bucket60 (t : ℤ) : ℤ := 60 * Int.ediv t 60

/-- Per-minute change counts of a group (line 110 of txt-file.py); as with
`counts30`, the empty resample bins count 0 and cannot affect the max. -/
def counts60 (tss : List ℤ) : List ℕ :=
  (sortedDistinct (tss.map bucket60)).map
    (fun b => (tss.filter (fun t => decide (bucket60 t = b))).length)

/-- `peak_per_min` (line 113 of txt-file.py). -/
def peakPerMin (tss : List ℤ) : ℕ := listMax (counts60 tss) 0

/-- `duration_minutes = max(1.0, duration_seconds / 60.0)` (line 121 of
txt-file.py). -/
def durationMinutes (tss : List ℤ) : ℚ :=
  max 1 (((listMax tss 0 - listMin tss 0 : ℤ) : ℚ) / 60)

/-- One row of the file-change summary (lines 125-131 of txt-file.py). -/
structure FileRow where
  dev : String
  total : ℕ
  avgPerMin : ℚ
  peakPerMin : ℕ
  spanMinutes : ℚ
deriving Repr

/-- The baseline: the earliest timestamp of the whole log (line 73 of
txt-file.py). -/
def fileBaseline (records : List FileRec) : ℤ :=
  listMin (records.map (fun r => r.ts)) 0

/-- `df_changes`: the records strictly after the baseline (line 77 of
txt-file.py). -/
def fileChanges (records : List FileRec) : List FileRec :=
  records.filter (fun r => decide (fileBaseline records < r.ts))

/-- The summary row of one device's change group (lines 104-131 of
txt-file.py). -/
def fileChangeRow (changes : List FileRec) (d : String) : FileRow :=
  let g := (changes.filter (fun r => decide (r.dev = d))).map (fun r => r.ts)
  ⟨d, g.length, (g.length : ℚ) / durationMinutes g, peakPerMin g,
    durationMinutes g⟩

/-- `process_file_change_log` (txt-file.py): `none` with no records;
all-zero rows for every input device when no record lies after the
baseline (lines 79-89); otherwise one row per device of the
post-baseline change set. -/
def process_file_change_log (records : List FileRec) : Option (List FileRow) :=
  match records with
  | [] => none
  | _ :: _ =>
    if (fileChanges records).isEmpty then
      some ((uniqueKeys (records.map (fun r => r.dev))).map
        (fun d => ⟨d, 0, 0, 0, 0⟩))
    else
      some ((strKeys ((fileChanges records).map (fun r => r.dev))).map
        (fileChangeRow (fileChanges records)))

/-- C5: count-style windowing divides the total occurrence count by
`max(1, span / window_width)` — 30-second windows in txt-proc-new.py,
1-minute windows in txt-file.py — so an entity observed for less than one
window width has denominator exactly one window and average = total; the
scenario of 5 events across a 10-second span with 30-second windows gives
average 5 and peak 5. -/
theorem c5_count_windowing :
    (∀ tss : List ℤ, avgPer30s tss =
      (tss.length : ℚ) / max 1 (((listMax tss 0 - listMin tss 0 : ℤ) : ℚ) / 30)) ∧
    (∀ tss : List ℤ, listMax tss 0 - listMin tss 0 ≤ 30 →
      avgPer30s tss = (tss.length : ℚ)) ∧
    (∀ tss : List ℤ, listMax tss 0 - listMin tss 0 ≤ 60 →
      (tss.length : ℚ) / durationMinutes tss = (tss.length : ℚ)) ∧
    (avgPer30s [0, 2, 4, 7, 10] = 5 ∧ peakPer30s [0, 2, 4, 7, 10] = 5) := by
  have h30 : ∀ tss : List ℤ, listMax tss 0 - listMin tss 0 ≤ 30 →
      num30sIntervals tss = 1 := by
    intro tss h
    rw [num30sIntervals]
    refine max_eq_left ?_
    rw [div_le_one (by norm_num : (0 : ℚ) < 30)]
    exact_mod_cast h
  have h60 : ∀ tss : List ℤ, listMax tss 0 - listMin tss 0 ≤ 60 →
      durationMinutes tss = 1 := by
    intro tss h
    rw [durationMinutes]
    refine max_eq_left ?_
    rw [div_le_one (by norm_num : (0 : ℚ) < 60)]
    exact_mod_cast h
  refine ⟨fun tss => rfl, ?_, ?_, ?_, ?_⟩
  · intro tss h
    rw [avgPer30s, h30 tss h, div_one]
  · intro tss h
    rw [h60 tss h, div_one]
  · rw [avgPer30s, h30 [0, 2, 4, 7, 10] (by decide)]
    norm_num
  · decide

/-- Witness for C5 at the scenario group and a one-minute file-change
group. -/
theorem c5_count_windowing_witness :
    (listMax [(0 : ℤ), 2, 4, 7, 10] 0 - listMin [(0 : ℤ), 2, 4, 7, 10] 0 ≤ 30 ∧
      avgPer30s [0, 2, 4, 7, 10] = (([(0 : ℤ), 2, 4, 7, 10] : List ℤ).length : ℚ)) ∧
    (listMax [(0 : ℤ), 30] 0 - listMin [(0 : ℤ), 30] 0 ≤ 60 ∧
      (([(0 : ℤ), 30] : List ℤ).length : ℚ) / durationMinutes [0, 30] =
        (([(0 : ℤ), 30] : List ℤ).length : ℚ)) :=
  ⟨⟨by decide, c5_count_windowing.2.1 [0, 2, 4, 7, 10] (by decide)⟩,
    ⟨by decide, c5_count_windowing.2.2.1 [0, 30] (by decide)⟩⟩

/-- C8 counterexample: device "a" has a baseline sample and zero
post-baseline samples, but because device "b" does have a post-baseline
change, the summary has exactly one row — for "b" — and no synthetic
zero-valued row for "a". -/
theorem c8_no_zero_row_for_baseline_only_entity :
    process_file_change_log [⟨"a", 0⟩, ⟨"b", 0⟩, ⟨"b", 60⟩] =
      some [⟨"b", 1, 1, 1, 1⟩] := by
  have hch : fileChanges [⟨"a", 0⟩, ⟨"b", 0⟩, ⟨"b", 60⟩] = [⟨"b", 60⟩] := by decide
  have hdm : durationMinutes [(60 : ℤ)] = 1 := by
    rw [durationMinutes, show listMax [(60 : ℤ)] 0 = 60 from rfl,
      show listMin [(60 : ℤ)] 0 = 60 from rfl]
    norm_num
  rw [process_file_change_log]
  rw [hch]
  rw [show (([⟨"b", 60⟩] : List FileRec).isEmpty) = false from rfl]
  simp only [Bool.false_eq_true, if_false]
  rw [show strKeys (([⟨"b", 60⟩] : List FileRec).map (fun r => r.dev)) = ["b"] from by decide]
  rw [List.map_singleton]
  rw [fileChangeRow]
  rw [show (([⟨"b", 60⟩] : List FileRec).filter
      (fun r => decide (r.dev = "b"))).map (fun r => r.ts) = [(60 : ℤ)] from by decide]
  rw [hdm]
  norm_num
  decide

/-- C8 (amended): records at the baseline timestamp are excluded from all
change counts — each row's total counts exactly its device's post-baseline
records; synthetic zero-valued rows are emitted only in runs with no
post-baseline record at all, and then one for every device of the input;
whenever some change exists, a row appears only for devices that have a
post-baseline record, so a device with only baseline samples is omitted. -/
theorem c8_baseline_and_zero_rows :
    (∀ (records : List FileRec) (rows : List FileRow),
      process_file_change_log records = some rows →
      ∀ row ∈ rows, row.total =
        ((fileChanges records).filter (fun r => decide (r.dev = row.dev))).length) ∧
    (∀ records : List FileRec, records ≠ [] → fileChanges records = [] →
      process_file_change_log records =
        some ((uniqueKeys (records.map (fun r => r.dev))).map
          (fun d => ⟨d, 0, 0, 0, 0⟩))) ∧
    (∀ (records : List FileRec) (rows : List FileRow),
      fileChanges records ≠ [] →
      process_file_change_log records = some rows →
      ∀ row ∈ rows, ∃ r ∈ records, r.dev = row.dev ∧ fileBaseline records < r.ts) := by
  refine ⟨?_, ?_, ?_⟩
  · intro records rows hrun row hrow
    match records, hrun with
    | r0 :: rs, hrun =>
      rw [process_file_change_log] at hrun
      by_cases hemp : (fileChanges (r0 :: rs)).isEmpty
      · rw [if_pos hemp] at hrun
        have hch : fileChanges (r0 :: rs) = [] := List.isEmpty_iff.mp hemp
        rcases Option.some.injEq _ _ ▸ hrun with h
        have hrows : rows = (uniqueKeys ((r0 :: rs).map (fun r => r.dev))).map
            (fun d => ⟨d, 0, 0, 0, 0⟩) := (Option.some.inj hrun).symm
        subst hrows
        rcases List.mem_map.mp hrow with ⟨d, _, hd⟩
        rw [← hd, hch]
        rfl
      · rw [if_neg hemp] at hrun
        have hrows : rows = (strKeys ((fileChanges (r0 :: rs)).map (fun r => r.dev))).map
            (fileChangeRow (fileChanges (r0 :: rs))) := (Option.some.inj hrun).symm
        subst hrows
        rcases List.mem_map.mp hrow with ⟨d, _, hd⟩
        rw [← hd, fileChangeRow]
        simp [List.length_map]
  · intro records hne hch
    match records with
    | r0 :: rs =>
      rw [process_file_change_log, if_pos (by rw [hch]; rfl)]
  · intro records rows hne hrun row hrow
    match records, hrun with
    | r0 :: rs, hrun =>
      rw [process_file_change_log] at hrun
      rw [if_neg (fun h => hne (List.isEmpty_iff.mp h))] at hrun
      have hrows : rows = (strKeys ((fileChanges (r0 :: rs)).map (fun r => r.dev))).map
          (fileChangeRow (fileChanges (r0 :: rs))) := (Option.some.inj hrun).symm
      subst hrows
      rcases List.mem_map.mp hrow with ⟨d, hd, hrowd⟩
      have hdev : row.dev = d := by rw [← hrowd, fileChangeRow]
      rcases List.mem_map.mp ((mem_strKeys d _).mp hd) with ⟨c, hc, hcd⟩
      have hcrec := List.mem_filter.mp hc
      exact ⟨c, hcrec.1, by rw [hdev, ← hcd], of_decide_eq_true hcrec.2⟩

/-- Witness for C8 (amended) at concrete runs of both branches. -/
theorem c8_baseline_and_zero_rows_witness :
    (process_file_change_log [⟨"a", 0⟩] = some [⟨"a", 0, 0, 0, 0⟩] ∧
      ∀ row ∈ ([⟨"a", 0, 0, 0, 0⟩] : List FileRow), row.total =
        ((fileChanges [⟨"a", 0⟩]).filter (fun r => decide (r.dev = row.dev))).length) ∧
    (([⟨"a", 0⟩] : List FileRec) ≠ [] ∧ fileChanges [⟨"a", 0⟩] = [] ∧
      process_file_change_log [⟨"a", 0⟩] =
        some ((uniqueKeys (([⟨"a", 0⟩] : List FileRec).map (fun r => r.dev))).map
          (fun d => ⟨d, 0, 0, 0, 0⟩))) ∧
    (fileChanges [⟨"a", 0⟩, ⟨"b", 0⟩, ⟨"b", 60⟩] ≠ [] ∧
      ∀ row ∈ (strKeys ((fileChanges [⟨"a", 0⟩, ⟨"b", 0⟩, ⟨"b", 60⟩]).map
          (fun r => r.dev))).map
          (fileChangeRow (fileChanges [⟨"a", 0⟩, ⟨"b", 0⟩, ⟨"b", 60⟩])),
        ∃ r ∈ ([⟨"a", 0⟩, ⟨"b", 0⟩, ⟨"b", 60⟩] : List FileRec),
          r.dev = row.dev ∧ fileBaseline [⟨"a", 0⟩, ⟨"b", 0⟩, ⟨"b", 60⟩] < r.ts) :=
  ⟨⟨rfl, c8_baseline_and_zero_rows.1 [⟨"a", 0⟩] [⟨"a", 0, 0, 0, 0⟩] rfl⟩,
    ⟨List.cons_ne_nil _ _, by decide,
      c8_baseline_and_zero_rows.2.1 [⟨"a", 0⟩] (List.cons_ne_nil _ _) (by decide)⟩,
    ⟨by decide,
      c8_baseline_and_zero_rows.2.2 [⟨"a", 0⟩, ⟨"b", 0⟩, ⟨"b", 60⟩] _ (by decide) rfl⟩⟩

/-! Line-level extraction and error counting: embedding of the read loop
of txt-cpu-load.py, lines 25-62 (claim C9). -/

/-- A decoded JSON value, as far as the extraction loop inspects it. -/
inductive JVal where
  | jnull : JVal
  | jbool : Bool → JVal
  | jnum : ℚ → JVal
  | jstr : String → JVal
  | jarr : List JVal → JVal
  | jobj : List (String × JVal) → JVal

/-- One input line: `bad` stands for a line on which `json.loads` raises
(malformed JSON) or whose decoded value is not an object, so that the
`.get` calls raise; `obj` is a decoded JSON object with its fields. -/
inductive RawLine where
  | bad : RawLine
  | obj : List (String × JVal) → RawLine

/-- `data_entry.get(k)`: the field value, `None` (`jnull`) when absent. -/
def getField (fields : List (String × JVal)) (k : String) : JVal :=
  (fields.lookup k).getD JVal.jnull

/-- Python truthiness of the decoded values (`if not dev_id: continue`). -/
def truthy : JVal → Bool
  | .jnull => false
  | .jbool b => b
  | .jnum q => decide (q ≠ 0)
  | .jstr s => !s.isEmpty
  | .jarr l => !l.isEmpty
  | .jobj f => !f.isEmpty

/-- `isinstance(v, (int, float))`; Python `bool` is an `int` subclass. -/
def isNumeric : JVal → Bool
  | .jnum _ => true
  | .jbool _ => true
  | _ => false

/-- `float(v)` for a value that passed `isNumeric`. -/
def numValue : JVal → ℚ
  | .jnum q => q
  | .jbool b => if b then 1 else 0
  | _ => 0

/-- `int(x)` on the timestamp value: truncation toward zero for numbers
(integer division of numerator by denominator), digit-string parsing for
strings, failure (`None`/lists raise `TypeError`) otherwise. -/
def pyToInt : JVal → Option ℤ
  | .jnum q => some (Int.tdiv q.num (q.den : ℤ))
  | .jbool b => some (if b then 1 else 0)
  | .jstr s => s.toInt?
  | _ => none

/-- Outcome of the loop body for one decoded line. -/
inductive LineResult (α : Type) where
  | record : α → LineResult α
  | skip : LineResult α
  | err : LineResult α

/-- One appended record of the loop (lines 42-46 of txt-cpu-load.py). -/
structure CpuLine where
  dev : JVal
  ts : ℤ
  load : ℚ

/-- The loop body of txt-cpu-load.py lines 29-52 on one decoded object,
with the guard order of the source: falsy `DevID` skips, missing
`TimeStamp` skips, non-list or empty `Load` skips, non-numeric `Load[0]`
skips — all without touching the error counter — and only a failing
conversion inside the append (`int(timestamp)`) raises and is counted. -/
def cpuLoadLine (fields : List (String × JVal)) : LineResult CpuLine :=
  let dev := getField fields "DevID"
  let load := getField fields "Load"
  let ts := getField fields "TimeStamp"
  if !truthy dev then .skip
  else match ts with
  | .jnull => .skip
  | _ =>
    match load with
    | .jarr (v :: _) =>
      if isNumeric v then
        match pyToInt ts with
        | some n => .record ⟨dev, n, numValue v⟩
        | none => .err
      else .skip
    | _ => .skip

/-- The whole read loop of txt-cpu-load.py: the extracted records in input
order together with the `parsing_errors` count; a `bad` line bumps the
counter (lines 49-52), a skipped line touches neither. -/
def cpuLoadExtract : List RawLine → List CpuLine × ℕ
  | [] => ([], 0)
  | .bad :: rest =>
    let res := cpuLoadExtract rest
    (res.1, res.2 + 1)
  | .obj f :: rest =>
    let res := cpuLoadExtract rest
    match cpuLoadLine f with
    | .record r => (r :: res.1, res.2)
    | .skip => res
    | .err => (res.1, res.2 + 1)

/-- Lines 60-62 of txt-cpu-load.py: an empty extraction produces the
no-data outcome (`return None`) instead of raising. -/
def cpuLoadRun (lines : List RawLine) : Option (List CpuLine) :=
  if (cpuLoadExtract lines).1.isEmpty then none
  else some (cpuLoadExtract lines).1

/-- A fully valid input line. -/
def goodLine (d : String) (t v : ℚ) : RawLine :=
  RawLine.obj [("DevID", JVal.jstr d), ("Load", JVal.jarr [JVal.jnum v]),
    ("TimeStamp", JVal.jnum t)]

/-- C9 counterexample: a well-formed JSON line that merely misses the
required `DevID` field is skipped WITHOUT incrementing the parse-error
counter: the one-line run extracts no record and counts 0 errors, whereas
the claim requires the counter to be incremented for a line missing a
required field. -/
theorem c9_missing_field_not_counted :
    cpuLoadExtract [RawLine.obj [("Load", JVal.jarr [JVal.jnum 1]),
      ("TimeStamp", JVal.jnum 0)]] = ([], 0) := rfl

/-- C9 (amended): a malformed line (where `json.loads` raises) is skipped
with the parse-error counter incremented and the run continuing over the
remaining lines; a line missing a required field or carrying a wrongly
typed value is skipped silently, without incrementing the counter; a run
whose extraction is empty returns the no-data outcome instead of raising;
and 1 malformed line among 3 valid lines yields exactly 3 extracted
records and a parse-error count of 1. -/
theorem c9_line_errors :
    (∀ rest : List RawLine, cpuLoadExtract (RawLine.bad :: rest) =
      ((cpuLoadExtract rest).1, (cpuLoadExtract rest).2 + 1)) ∧
    (∀ (f : List (String × JVal)) (rest : List RawLine),
      cpuLoadLine f = LineResult.skip →
      cpuLoadExtract (RawLine.obj f :: rest) = cpuLoadExtract rest) ∧
    (∀ lines : List RawLine, (cpuLoadExtract lines).1 = [] →
      cpuLoadRun lines = none) ∧
    cpuLoadExtract [goodLine "d1" 0 1, RawLine.bad, goodLine "d2" 10 2,
        goodLine "d3" 20 3] =
      ([⟨JVal.jstr "d1", 0, 1⟩, ⟨JVal.jstr "d2", 10, 2⟩,
        ⟨JVal.jstr "d3", 20, 3⟩], 1) := by
  refine ⟨?_, ?_, ?_, ?_⟩
  · intro rest
    rfl
  · intro f rest hskip
    show (match cpuLoadLine f with
      | LineResult.record r => (r :: (cpuLoadExtract rest).1, (cpuLoadExtract rest).2)
      | LineResult.skip => cpuLoadExtract rest
      | LineResult.err => ((cpuLoadExtract rest).1, (cpuLoadExtract rest).2 + 1)) =
      cpuLoadExtract rest
    rw [hskip]
  · intro lines h
    rw [cpuLoadRun, if_pos (by rw [h]; rfl)]
  · rfl

/-- Witness for C9 (amended) at concrete lines. -/
theorem c9_line_errors_witness :
    (cpuLoadExtract [RawLine.bad] =
      ((cpuLoadExtract []).1, (cpuLoadExtract []).2 + 1)) ∧
    (cpuLoadLine [("Load", JVal.jarr [JVal.jnum 1]), ("TimeStamp", JVal.jnum 0)] =
        LineResult.skip ∧
      cpuLoadExtract [RawLine.obj [("Load", JVal.jarr [JVal.jnum 1]),
          ("TimeStamp", JVal.jnum 0)], RawLine.bad] =
        cpuLoadExtract [RawLine.bad]) ∧
    ((cpuLoadExtract [RawLine.bad]).1 = [] ∧ cpuLoadRun [RawLine.bad] = none) :=
  ⟨c9_line_errors.1 [],
    ⟨rfl, c9_line_errors.2.1 [("Load", JVal.jarr [JVal.jnum 1]),
      ("TimeStamp", JVal.jnum 0)] [RawLine.bad] rfl⟩,
    ⟨rfl, c9_line_errors.2.2.1 [RawLine.bad] rfl⟩⟩

end Discern
